import Mathlib

/-!
# Verification of the MockDraft data normalizer and navigation state machine

Shallow embedding of the logic in `NbaMockDraftUi` (the complete variant):
the data normalizer (`normalizeTeams`, `createTeamId`, pick sorting), the
navigation state machine over the component state (`view`, `activeTeam`,
`activePlayer`, `teams`, `isLoading`, `error`), and the case-insensitive
stat lookup (`resolveStatValue`).
-/

namespace MockDraft

/-- A stat value is a JS `number | string`.  Numbers are modelled as
rationals (no arithmetic is ever performed on them, they are only stored,
looked up and displayed). -/
inductive StatValue where
  | num (v : ℚ)
  | str (s : String)
deriving DecidableEq, Repr

/-- Embeds `Record<string, number | string | undefined>`: keys that are absent or
explicitly `undefined` are simply not in the list. -/
def PlayerStats := List (String × StatValue)
deriving instance DecidableEq, Repr for PlayerStats

/-- The `Player` type of the source (one draft pick). -/
structure Player where
  pick : Int
  player : String
  position : String
  school : String
  bio : Option String := none
  stats : Option PlayerStats := none
deriving DecidableEq, Repr

/-- The loosely-shaped raw team record (`DraftTeam` in the source): every
field may be absent. -/
structure DraftTeam where
  id : Option String := none
  name : Option String := none
  logo : Option String := none
  picks : Option (List Player) := none
deriving DecidableEq, Repr

/-- The canonical `Team` produced by the normalizer. -/
structure Team where
  id : String
  name : String
  logo : String
  picks : List Player
deriving DecidableEq, Repr

/-- The fetched document shape (`DraftResponse`): `teams` may be absent. -/
structure DraftResponse where
  teams : Option (List DraftTeam) := none
deriving DecidableEq, Repr

/-! ## The slug computation of `createTeamId`

The source computes
`name.trim().toLowerCase().replace(/[^a-z0-9]+/g, "-").replace(/(^-|-$)/g, "")`.
The first regex replaces every maximal run of characters outside `[a-z0-9]`
by a single hyphen; this is embedded as a character map to `'-'` followed by
collapsing adjacent hyphens.  The second regex removes one leading and one
trailing hyphen (after collapsing, at most one of each exists). -/

/-- JS `String.prototype.trim`: drop whitespace from both ends
(embedded at the character-list level). -/
def trimChars (l : List Char) : List Char :=
  ((l.dropWhile Char.isWhitespace).reverse.dropWhile Char.isWhitespace).reverse

/-- JS `s.trim()`. -/
def strTrim (s : String) : String := List.asString (trimChars s.data)

/-- JS `s.toLowerCase()` (character-wise lowering). -/
def strToLower (s : String) : String := List.asString (s.data.map Char.toLower)

/-- Membership in the regex class `[a-z0-9]`. -/
def isSlugChar (c : Char) : Bool :=
  (('a' ≤ c && c ≤ 'z') || ('0' ≤ c && c ≤ '9'))

/-- Collapse adjacent `'-'` pairs, so that every maximal run of hyphens
becomes a single hyphen. -/
def squeezeDashes : List Char → List Char
  | [] => []
  | [c] => [c]
  | c :: d :: rest =>
    if c == '-' && d == '-' then squeezeDashes (d :: rest)
    else c :: squeezeDashes (d :: rest)

/-- Remove a single leading `'-'` (the `^-` alternative of the regex). -/
def dropLeadDash : List Char → List Char
  | '-' :: rest => rest
  | l => l

/-- Remove one leading and one trailing hyphen (`/(^-|-$)/g`). -/
def dropBoundaryDashes (l : List Char) : List Char :=
  ((dropLeadDash l).reverse |> dropLeadDash).reverse

/-- The slug of a team name, as computed inside `createTeamId`. -/
def slugify (name : String) : String :=
  List.asString
    (dropBoundaryDashes (squeezeDashes
      ((strToLower (strTrim name)).data.map (fun c => if isSlugChar c then c else '-'))))

/-- Function `createTeamId` from the source: use the provided id when it is present
and non-blank; else slug of the name suffixed with `-<index>` when the name
is present and non-blank (falling back to `team-<index>` when the slug is
empty); else `team-<index>`. -/
def createTeamId (team : DraftTeam) (index : Nat) : String :=
  if (strTrim (team.id.getD "")).length > 0 then team.id.getD ""
  else if (strTrim (team.name.getD "")).length > 0 then
    if (slugify (team.name.getD "")).length > 0 then
      slugify (team.name.getD "") ++ "-" ++ toString index
    else "team-" ++ toString index
  else "team-" ++ toString index

/-! ## Sorting picks

The source sorts with `[...].sort((first, second) => first.pick - second.pick)`,
a stable sort ascending by `pick`; this is embedded as insertion sort with
the total preorder `pickLE` (insertion sort is stable, and any two stable
sorts under the same total preorder agree). -/

/-- The ordering used on picks: ascending by `pick`. -/
def pickLE (a b : Player) : Prop := a.pick ≤ b.pick

instance : DecidableRel pickLE := fun a b =>
  inferInstanceAs (Decidable (a.pick ≤ b.pick))

instance : IsTotal Player pickLE := ⟨fun a b => Int.le_total a.pick b.pick⟩

instance : IsTrans Player pickLE := ⟨fun _ _ _ => Int.le_trans⟩

/-- Stable ascending sort by `pick` of a team's raw picks. -/
def sortPicks (picks : List Player) : List Player :=
  List.insertionSort pickLE picks

/-- Function `normalizeTeams` from the source. -/
def normalizeTeams (rawTeams : List DraftTeam) : List Team :=
  rawTeams.enum.map (fun p =>
    { id := createTeamId p.2 p.1
      name := p.2.name.getD ("Team " ++ toString (p.1 + 1))
      logo := p.2.logo.getD ""
      picks := sortPicks (p.2.picks.getD []) })

/-! ## Claim C1: the id-derivation rule -/

/-- The slug exactly as the claim's words describe it: "lowercased, runs of
non-alphanumeric characters collapsed to a single hyphen, leading and
trailing hyphens trimmed" (no whitespace pre-trim is mentioned; it makes no
difference to the result). -/
def slugClaim (name : String) : String :=
  List.asString
    (dropBoundaryDashes (squeezeDashes
      ((strToLower name).data.map (fun c => if isSlugChar c then c else '-'))))

/-- The id rule exactly as the claim states it: a present non-blank id is
used unchanged; otherwise a present non-blank name yields the slug of the
name "followed by '-' and the positional index" (with no further fallback);
otherwise `team-<index>`. -/
def createTeamIdClaim (team : DraftTeam) (index : Nat) : String :=
  if 0 < (strTrim (team.id.getD "")).length then team.id.getD ""
  else if 0 < (strTrim (team.name.getD "")).length then
    slugClaim (team.name.getD "") ++ "-" ++ toString index
  else "team-" ++ toString index

/-- C1 counterexample: for the raw record with no id and name `"!!!"` the
claim's rule produces `"-0"` (the slug is empty), but `createTeamId`
produces `"team-0"` via the empty-slug fallback the claim omits. -/
theorem C1_counterexample :
    createTeamIdClaim { id := none, name := some "!!!", logo := none, picks := none } 0 = "-0" ∧
    createTeamId { id := none, name := some "!!!", logo := none, picks := none } 0 = "team-0" ∧
    ("-0" : String) ≠ "team-0" := by decide

/-- The claim's "Golden State Warriors" record (no id). -/
def gswRecord : DraftTeam := { id := none, name := some "Golden State Warriors", logo := none, picks := none }

/-- A raw record with neither id nor name. -/
def emptyRecord : DraftTeam := { id := none, name := none, logo := none, picks := none }

/-- C1 (amended): the normalizer assigns ids by: a present non-blank id is
used unchanged; else, for a present non-blank name, the slug of the name
followed by `-<index>` when the slug is non-empty and `team-<index>` when
the slug is empty; else `team-<index>`.  In particular
`"Golden State Warriors"` with no id gives `golden-state-warriors-<index>`
and a record with neither id nor name gives `team-<index>`.
("Non-blank" is a positive length after trimming whitespace.) -/
theorem C1_createTeamId_rule (team : DraftTeam) (index : Nat) :
    (∀ s, team.id = some s → 0 < (strTrim s).length → createTeamId team index = s) ∧
    ((∀ s, team.id = some s → (strTrim s).length = 0) →
      ∀ n, team.name = some n → 0 < (strTrim n).length →
        (0 < (slugify n).length →
          createTeamId team index = slugify n ++ "-" ++ toString index) ∧
        ((slugify n).length = 0 →
          createTeamId team index = "team-" ++ toString index)) ∧
    ((∀ s, team.id = some s → (strTrim s).length = 0) →
      (∀ n, team.name = some n → (strTrim n).length = 0) →
      createTeamId team index = "team-" ++ toString index) ∧
    createTeamId gswRecord index = "golden-state-warriors-" ++ toString index ∧
    createTeamId emptyRecord index = "team-" ++ toString index := by
  have hblank : ∀ o : Option String, (∀ s, o = some s → (strTrim s).length = 0) →
      ¬ 0 < (strTrim (o.getD "")).length := by
    intro o ho
    cases o with
    | none => decide
    | some s =>
      have := ho s rfl
      simp only [Option.getD_some]
      omega
  refine ⟨?_, ?_, ?_, ?_, rfl⟩
  · intro s hs hlen
    simp only [createTeamId, hs, Option.getD_some]
    rw [if_pos hlen]
  · intro hid n hn hlen
    have hbody : createTeamId team index =
        (if 0 < (slugify n).length then slugify n ++ "-" ++ toString index
         else "team-" ++ toString index) := by
      simp only [createTeamId, hn, Option.getD_some]
      rw [if_neg (hblank team.id hid), if_pos hlen]
    refine ⟨fun hpos => ?_, fun hzero => ?_⟩
    · rw [hbody, if_pos hpos]
    · rw [hbody, if_neg (by omega)]
  · intro hid hname
    simp only [createTeamId]
    rw [if_neg (hblank team.id hid), if_neg (hblank team.name hname)]
  · have hcond1 : 0 < (strTrim ((gswRecord.name).getD "")).length := by decide
    have hcond2 : 0 < (slugify ((gswRecord.name).getD "")).length := by decide
    have h1 : createTeamId gswRecord index =
        slugify ((gswRecord.name).getD "") ++ "-" ++ toString index := by
      simp only [createTeamId]
      rw [if_neg (by decide), if_pos hcond1, if_pos hcond2]
    have hslug : slugify ((gswRecord.name).getD "") = "golden-state-warriors" := by decide
    rw [h1, hslug]
    rfl

/-- C1 witness: the three branches of the rule at concrete records. -/
theorem C1_createTeamId_rule_witness :
    createTeamId { id := some "KC", name := none, logo := none, picks := none } 5 = "KC" ∧
    createTeamId gswRecord 2 = slugify "Golden State Warriors" ++ "-" ++ toString 2 ∧
    createTeamId { id := some " ", name := none, logo := none, picks := none } 9 = "team-" ++ toString 9 :=
  ⟨(C1_createTeamId_rule { id := some "KC", name := none, logo := none, picks := none } 5).1 "KC" rfl (by decide),
   ((C1_createTeamId_rule gswRecord 2).2.1 (fun s h => by cases h) "Golden State Warriors" rfl (by decide)).1 (by decide),
   (C1_createTeamId_rule { id := some " ", name := none, logo := none, picks := none } 9).2.2.1
      (fun s h => by cases h; decide) (fun n h => by cases h)⟩

/-! ## Claim C2: picks are sorted ascending by pick number -/

/-- Picks of any canonical team are sorted ascending by `pick`. -/
theorem picks_sorted_of_mem_normalizeTeams {raw : List DraftTeam} {t : Team}
    (h : t ∈ normalizeTeams raw) : t.picks.Sorted pickLE := by
  simp only [normalizeTeams, List.mem_map] at h
  obtain ⟨p, _, rfl⟩ := h
  exact List.sorted_insertionSort pickLE _

/-- A bare player record carrying only a pick number. -/
def pickStub (n : Int) : Player := { pick := n, player := "", position := "", school := "" }

/-- The raw record of the claim's example, picks in order `[3, 1, 2]`. -/
def exDtC2 : DraftTeam :=
  { id := none, name := none, logo := none, picks := some [pickStub 3, pickStub 1, pickStub 2] }

/-- C2: the canonical team at any position `i` has its picks sorted
ascending by `pick` and a permutation of the raw picks (empty when the raw
record has no picks field); the claim's example `[3,1,2]` normalizes to
pick order `[1,2,3]`. -/
theorem C2_picks_sorted :
    (∀ (raw : List DraftTeam) (i : Nat) (dt : DraftTeam), raw.get? i = some dt →
      ∃ t : Team, (normalizeTeams raw).get? i = some t ∧
        t.picks.Sorted pickLE ∧ t.picks.Perm (dt.picks.getD []) ∧
        (dt.picks = none → t.picks = [])) ∧
    (normalizeTeams [exDtC2]).map (fun t => t.picks.map Player.pick) = [[1, 2, 3]] := by
  constructor
  · intro raw i dt hdt
    refine ⟨{ id := createTeamId dt i, name := dt.name.getD ("Team " ++ toString (i + 1)), logo := dt.logo.getD "", picks := sortPicks (dt.picks.getD []) }, ?_, ?_, ?_, ?_⟩
    · simp only [normalizeTeams, List.get?_map, List.get?_enum, hdt, Option.map_some']
    · exact List.sorted_insertionSort pickLE _
    · exact List.perm_insertionSort pickLE _
    · intro hnone
      simp only [hnone, Option.getD_none]
      rfl
  · decide

/-- C2 witness: the sorted/permutation guarantee at the claim's `[3,1,2]`
example record. -/
theorem C2_picks_sorted_witness :
    ([exDtC2].get? 0 = some exDtC2) ∧
    ∃ t : Team, (normalizeTeams [exDtC2]).get? 0 = some t ∧
      t.picks.Sorted pickLE ∧ t.picks.Perm (exDtC2.picks.getD []) ∧
      (exDtC2.picks = none → t.picks = []) :=
  ⟨rfl, C2_picks_sorted.1 [exDtC2] 0 exDtC2 rfl⟩

/-! ## The navigation state machine

The component state: `teams`, `view`, `activeTeam`, `activePlayer`,
`isLoading`, `error`, together with the event handlers of the source.
React `useState` cells become record fields; each UI event handler becomes
a function on the whole state. -/

/-- The `view` state: `"overview" | "team"`. -/
inductive View where
  | overview
  | team
deriving DecidableEq, Repr

/-- The component state. -/
structure AppState where
  teams : List Team
  view : View
  activeTeam : Option Team
  activePlayer : Option Player
  isLoading : Bool
  error : Option String
deriving DecidableEq, Repr

/-- The initial state of the component's `useState` hooks. -/
def initialState : AppState :=
  { teams := [], view := View.overview, activeTeam := none, activePlayer := none,
    isLoading := true, error := none }

/-- JS `Array.prototype.findIndex`: index of the first element satisfying
the predicate, `-1` when none does. -/
def jsFindIndex (p : α → Bool) : List α → Int
  | [] => -1
  | a :: rest =>
    if p a then 0
    else
      if jsFindIndex p rest < 0 then -1 else jsFindIndex p rest + 1

/-- The `activeTeamIndex` memo:
`teams.findIndex((team) => team.id === activeTeam.id)`, `-1` with no active
team. -/
def activeTeamIndex (s : AppState) : Int :=
  match s.activeTeam with
  | none => -1
  | some t => jsFindIndex (fun team => team.id == t.id) s.teams

/-- Source: `canGoPrevious = activeTeamIndex > 0`. -/
def canGoPrevious (s : AppState) : Bool := decide (0 < activeTeamIndex s)

/-- Source: `canGoNext = activeTeamIndex >= 0 && activeTeamIndex < teams.length - 1`. -/
def canGoNext (s : AppState) : Bool :=
  decide (0 ≤ activeTeamIndex s ∧ activeTeamIndex s < (s.teams.length : Int) - 1)

/-- Function `moveToTeam`: look up `teams[nextIndex]` (out-of-bounds and negative
indices give `undefined`, leaving the state unchanged), else make it the
active team and its first pick the active player. -/
def moveToTeam (s : AppState) (nextIndex : Int) : AppState :=
  if nextIndex < 0 then s
  else
    match s.teams.get? nextIndex.toNat with
    | none => s
    | some nextTeam =>
      { s with activeTeam := some nextTeam, activePlayer := nextTeam.picks.head? }

/-- The team-bubble `onSelect` handler. -/
def selectTeam (s : AppState) (t : Team) : AppState :=
  { s with activeTeam := some t, activePlayer := t.picks.head?, view := View.team }

/-- The pick-row `onClick` handler. -/
def selectPlayer (s : AppState) (p : Player) : AppState :=
  { s with activePlayer := some p }

/-- The "Back to Teams" handler. -/
def goBack (s : AppState) : AppState :=
  { s with view := View.overview, activePlayer := none, activeTeam := none }

/-- Clicking "Prev": disabled unless `canGoPrevious`; otherwise
`moveToTeam(activeTeamIndex - 1)`. -/
def prevTrigger (s : AppState) : AppState :=
  if canGoPrevious s then moveToTeam s (activeTeamIndex s - 1) else s

/-- Clicking "Next": disabled unless `canGoNext`; otherwise
`moveToTeam(activeTeamIndex + 1)`. -/
def nextTrigger (s : AppState) : AppState :=
  if canGoNext s then moveToTeam s (activeTeamIndex s + 1) else s

/-- Event: `loadDraft` begins (`setIsLoading(true)`). -/
def startLoad (s : AppState) : AppState := { s with isLoading := true }

/-- Event: `loadDraft` resolves successfully with document `resp`
(`data.teams ?? []` normalized; an empty result clears the selection and
forces the overview; `finally` clears the loading flag). -/
def applyLoadSuccess (s : AppState) (resp : DraftResponse) : AppState :=
  if (normalizeTeams (resp.teams.getD [])).length = 0 then
    { s with teams := normalizeTeams (resp.teams.getD []), error := none,
             activeTeam := none, activePlayer := none, view := View.overview,
             isLoading := false }
  else
    { s with teams := normalizeTeams (resp.teams.getD []), error := none,
             isLoading := false }

/-- Event: `loadDraft` fails (fetch rejected, non-ok status, or unparseable body):
the catch branch records the message, clears all data and selection, and
forces the overview. -/
def applyLoadFailure (s : AppState) : AppState :=
  { s with error := some "Failed to load draft data. Please try again later.",
           teams := [], activeTeam := none, activePlayer := none,
           view := View.overview, isLoading := false }

/-- A pending fetch resolves (`some resp` success, `none` failure).  Every
state update in `loadDraft` is guarded by `isMountedRef.current`; after the
component is torn down the resolution is discarded entirely.  The function
is total: resolution never throws. -/
def resolveLoad (isMounted : Bool) (s : AppState) (outcome : Option DraftResponse) : AppState :=
  if isMounted then
    match outcome with
    | some resp => applyLoadSuccess s resp
    | none => applyLoadFailure s
  else s

/-- The player-seeding effect: when the view is `team` with an active team
and no active player, seed the active player with the team's first pick
(`setActivePlayer((previous) => previous ?? activeTeam.picks?.[0] ?? null)`). -/
def seedPlayer (s : AppState) : AppState :=
  if s.view = View.team then
    match s.activeTeam with
    | some t =>
      match s.activePlayer with
      | some _ => s
      | none => { s with activePlayer := t.picks.head? }
    | none => s
  else s

/-- One UI event.  Guards record when a handler is actually reachable in
the rendered tree: team bubbles exist only on the overview and only for
teams of the current list; pick rows, back, prev and next exist only in the
team view (prev/next additionally no-op through their `disabled` state,
which is part of `prevTrigger`/`nextTrigger`); fetches can start and
resolve at any time; the seeding effect can run whenever React schedules
it.  When `strict = true`, fetch resolutions are only allowed while the
view is the overview (the restriction under which the full membership
invariant below holds). -/
inductive Step (strict : Bool) : AppState → AppState → Prop where
  | tapTeam (s : AppState) (t : Team) (hv : s.view = View.overview)
      (ht : t ∈ s.teams) : Step strict s (selectTeam s t)
  | tapPlayer (s : AppState) (t : Team) (p : Player) (hv : s.view = View.team)
      (ha : s.activeTeam = some t) (hp : p ∈ t.picks) : Step strict s (selectPlayer s p)
  | tapBack (s : AppState) (hv : s.view = View.team) : Step strict s (goBack s)
  | tapPrev (s : AppState) (hv : s.view = View.team) : Step strict s (prevTrigger s)
  | tapNext (s : AppState) (hv : s.view = View.team) : Step strict s (nextTrigger s)
  | fetchStart (s : AppState) : Step strict s (startLoad s)
  | fetchSuccess (s : AppState) (resp : DraftResponse)
      (hv : strict = true → s.view = View.overview) : Step strict s (applyLoadSuccess s resp)
  | fetchFailure (s : AppState) : Step strict s (applyLoadFailure s)
  | effectSeed (s : AppState) : Step strict s (seedPlayer s)

/-- States reachable from the initial state by any event sequence. -/
inductive Reachable (strict : Bool) : AppState → Prop where
  | init : Reachable strict initialState
  | step {s s' : AppState} : Reachable strict s → Step strict s s' →
      Reachable strict s'

/-! ## Facts about `jsFindIndex` -/

/-- The result of `findIndex` is never below `-1`. -/
theorem jsFindIndex_ge (p : α → Bool) (l : List α) : -1 ≤ jsFindIndex p l := by
  induction l with
  | nil => simp [jsFindIndex]
  | cons a rest ih =>
    simp only [jsFindIndex]
    split
    · omega
    · split <;> omega

/-- The result of `findIndex` is `-1` exactly when no element satisfies the
predicate. -/
theorem jsFindIndex_neg_iff (p : α → Bool) (l : List α) :
    jsFindIndex p l = -1 ↔ ∀ a ∈ l, p a = false := by
  induction l with
  | nil => simp [jsFindIndex]
  | cons a rest ih =>
    by_cases hpa : p a = true
    · simp [jsFindIndex, hpa]
    · have hfa : p a = false := by simpa using hpa
      have hge := jsFindIndex_ge p rest
      simp only [jsFindIndex, hfa, Bool.false_eq_true, if_false, List.forall_mem_cons, hfa,
        true_and]
      split
      · have : jsFindIndex p rest = -1 := by omega
        simpa [this] using ih.mp this
      · constructor
        · intro h; omega
        · intro h
          have := ih.mpr h
          omega

/-- A non-negative `findIndex` result is a valid index whose element
satisfies the predicate. -/
theorem jsFindIndex_found (p : α → Bool) (l : List α) (i : Nat)
    (h : jsFindIndex p l = (i : Int)) :
    i < l.length ∧ ∃ a, l.get? i = some a ∧ p a = true := by
  induction l generalizing i with
  | nil => simp only [jsFindIndex] at h; omega
  | cons a rest ih =>
    by_cases hpa : p a = true
    · have h0 : (0 : Int) = (i : Int) := by simpa [jsFindIndex, hpa] using h
      have : i = 0 := by omega
      subst this
      exact ⟨Nat.succ_pos _, a, rfl, hpa⟩
    · have hfa : p a = false := by simpa using hpa
      have hge := jsFindIndex_ge p rest
      simp only [jsFindIndex, hfa, Bool.false_eq_true, if_false] at h
      by_cases hneg : jsFindIndex p rest < 0
      · rw [if_pos hneg] at h; omega
      · rw [if_neg hneg] at h
        have hj : jsFindIndex p rest = ((i - 1 : Nat) : Int) := by omega
        obtain ⟨hlen, b, hget, hb⟩ := ih (i - 1) hj
        have hi : 0 < i := by omega
        refine ⟨by simp only [List.length_cons]; omega, b, ?_, hb⟩
        have : i = (i - 1) + 1 := by omega
        rw [this]
        simpa using hget

/-- Reducing `moveToTeam` at a valid index. -/
theorem moveToTeam_get (s : AppState) (idx : Int) (j : Nat) (t : Team)
    (hj : idx = (j : Int)) (hget : s.teams.get? j = some t) :
    moveToTeam s idx =
      { s with activeTeam := some t, activePlayer := t.picks.head? } := by
  subst hj
  simp only [moveToTeam]
  rw [if_neg (by omega)]
  simp only [Int.toNat_natCast, hget]

/-! ## Claim C10: out-of-bounds moves are no-ops -/

/-- C10: `moveToTeam` is total and guarded: any out-of-bounds index
(negative, in particular `-1`, or past the end) leaves the state — active
team, active player and view included — unchanged; and whenever the active
team's id does not occur in the current team list, `activeTeamIndex` is
`-1` and both the previous and next affordances are disabled. -/
theorem C10_moveToTeam_guarded (s : AppState) (idx : Int)
    (h : idx < 0 ∨ (s.teams.length : Int) ≤ idx) :
    moveToTeam s idx = s ∧
    (∀ a, s.activeTeam = some a → (∀ t ∈ s.teams, t.id ≠ a.id) →
      activeTeamIndex s = -1 ∧ canGoPrevious s = false ∧ canGoNext s = false) := by
  constructor
  · by_cases hneg : idx < 0
    · simp [moveToTeam, hneg]
    · have hlen : s.teams.length ≤ idx.toNat := by omega
      have hnone : s.teams.get? idx.toNat = none := List.get?_eq_none.mpr hlen
      simp only [moveToTeam, if_neg hneg, hnone]
  · intro a ha hnone
    have hidx : activeTeamIndex s = -1 := by
      simp only [activeTeamIndex, ha]
      refine (jsFindIndex_neg_iff _ _).mpr (fun t ht => ?_)
      simpa using hnone t ht
    refine ⟨hidx, ?_, ?_⟩
    · simp [canGoPrevious, hidx]
    · simp [canGoNext, hidx]

/-- A team used in the stale-selection scenarios. -/
def teamA : Team := { id := "a", name := "Team A", logo := "", picks := [] }

/-- Another team, replacing `teamA` after a reload. -/
def teamB : Team := { id := "b", name := "Team B", logo := "", picks := [] }

/-- A state whose active team no longer occurs in the team list. -/
def staleState : AppState :=
  { teams := [teamB], view := View.team, activeTeam := some teamA,
    activePlayer := none, isLoading := false, error := none }

/-- C10 witness: at the stale state, `moveToTeam` with index `-1` is a
no-op, the active index is `-1` and both affordances are disabled. -/
theorem C10_moveToTeam_guarded_witness :
    moveToTeam staleState (-1) = staleState ∧
    (activeTeamIndex staleState = -1 ∧ canGoPrevious staleState = false ∧
      canGoNext staleState = false) :=
  ⟨(C10_moveToTeam_guarded staleState (-1) (Or.inl (by decide))).1,
   (C10_moveToTeam_guarded staleState (-1) (Or.inl (by decide))).2 teamA rfl (by decide)⟩

/-- A non-negative `activeTeamIndex` is a valid position in the team
list. -/
theorem activeTeamIndex_lt (s : AppState) (i : Nat)
    (h : activeTeamIndex s = (i : Int)) : i < s.teams.length := by
  cases ha : s.activeTeam with
  | none => simp only [activeTeamIndex, ha] at h; omega
  | some t =>
    simp only [activeTeamIndex, ha] at h
    exact (jsFindIndex_found _ _ i h).1

/-! ## Claim C5: previous/next strictly by position, no wraparound -/

/-- C5: "previous" from position 0 and "next" from the last position leave
the entire state unchanged; otherwise previous (next) moves to the team
immediately before (after) the active team and seeds its first pick (none
if it has no picks). -/
theorem C5_prev_next (s : AppState) :
    (activeTeamIndex s = 0 → prevTrigger s = s) ∧
    (activeTeamIndex s = (s.teams.length : Int) - 1 → nextTrigger s = s) ∧
    (∀ i : Nat, activeTeamIndex s = (i : Int) → 0 < i →
      ∃ t, s.teams.get? (i - 1) = some t ∧
        prevTrigger s = { s with activeTeam := some t, activePlayer := t.picks.head? }) ∧
    (∀ i : Nat, activeTeamIndex s = (i : Int) → (i : Int) < (s.teams.length : Int) - 1 →
      ∃ t, s.teams.get? (i + 1) = some t ∧
        nextTrigger s = { s with activeTeam := some t, activePlayer := t.picks.head? }) := by
  refine ⟨?_, ?_, ?_, ?_⟩
  · intro hidx
    have hc : canGoPrevious s = false := by
      simp only [canGoPrevious, decide_eq_false_iff_not]
      omega
    simp [prevTrigger, hc]
  · intro hidx
    have hc : canGoNext s = false := by
      simp only [canGoNext, decide_eq_false_iff_not, not_and, not_lt]
      omega
    simp [nextTrigger, hc]
  · intro i hidx hi
    have hfound := activeTeamIndex_lt s i hidx
    have h1 : i - 1 < s.teams.length := by omega
    cases hget : s.teams.get? (i - 1) with
    | none => exact absurd (List.get?_eq_none.mp hget) (by omega)
    | some t =>
      refine ⟨t, rfl, ?_⟩
      have hc : canGoPrevious s = true := by
        simp only [canGoPrevious, decide_eq_true_eq]
        omega
      rw [prevTrigger, if_pos hc]
      exact moveToTeam_get s _ (i - 1) t (by omega) hget
  · intro i hidx hi
    have hfound := activeTeamIndex_lt s i hidx
    have h1 : i + 1 < s.teams.length := by omega
    cases hget : s.teams.get? (i + 1) with
    | none => exact absurd (List.get?_eq_none.mp hget) (by omega)
    | some t =>
      refine ⟨t, rfl, ?_⟩
      have hc : canGoNext s = true := by
        simp only [canGoNext, decide_eq_true_eq]
        omega
      rw [nextTrigger, if_pos hc]
      exact moveToTeam_get s _ (i + 1) t (by omega) hget

/-- A two-team canonical list used by the C5 witness. -/
def teamC : Team :=
  { id := "c", name := "Team C", logo := "", picks := [pickStub 4, pickStub 9] }

/-- The C5 witness state: `teamC` then `teamA`, with `teamA` active
(position 1, the last position). -/
def lastPosState : AppState :=
  { teams := [teamC, teamA], view := View.team, activeTeam := some teamA,
    activePlayer := none, isLoading := false, error := none }

/-- The C5 witness state with the active team at position 0. -/
def firstPosState : AppState :=
  { teams := [teamC, teamA], view := View.team, activeTeam := some teamC,
    activePlayer := some (pickStub 4), isLoading := false, error := none }

/-- C5 witness: at the last position "next" is a no-op and "previous" moves
to the preceding team with its first pick; at position 0 "previous" is a
no-op. -/
theorem C5_prev_next_witness :
    nextTrigger lastPosState = lastPosState ∧
    (∃ t, lastPosState.teams.get? 0 = some t ∧
      prevTrigger lastPosState =
        { lastPosState with activeTeam := some t, activePlayer := t.picks.head? }) ∧
    prevTrigger firstPosState = firstPosState :=
  ⟨(C5_prev_next lastPosState).2.1 (by decide),
   (C5_prev_next lastPosState).2.2.1 1 (by decide) (by decide),
   (C5_prev_next firstPosState).1 (by decide)⟩

/-! ## Claim C4: selecting a team from the overview -/

/-- C4: selecting team `T` from the overview performs a `Step` to a state
in `TeamDetail` whose active team is `T` and whose active player is `T`'s
first pick in sorted order (`T.picks` is stored sorted), or none when `T`
has no picks. -/
theorem C4_select_team (raw : List DraftTeam) (s : AppState) (t : Team)
    (hteams : s.teams = normalizeTeams raw) (hv : s.view = View.overview)
    (ht : t ∈ s.teams) :
    Step false s (selectTeam s t) ∧
    (selectTeam s t).view = View.team ∧
    (selectTeam s t).activeTeam = some t ∧
    (selectTeam s t).activePlayer = t.picks.head? ∧
    t.picks.Sorted pickLE ∧
    (t.picks = [] → (selectTeam s t).activePlayer = none) := by
  refine ⟨Step.tapTeam s t hv ht, rfl, rfl, rfl, ?_, ?_⟩
  · exact picks_sorted_of_mem_normalizeTeams (hteams ▸ ht)
  · intro hnil
    simp [selectTeam, hnil]

/-- The raw document of the C4 witness. -/
def exRawC4 : List DraftTeam :=
  [{ id := some "c", name := some "Team C", logo := none,
     picks := some [pickStub 9, pickStub 4] }]

/-- The overview state holding the normalization of `exRawC4`. -/
def overviewStateC4 : AppState :=
  { teams := normalizeTeams exRawC4, view := View.overview, activeTeam := none,
    activePlayer := none, isLoading := false, error := none }

/-- C4 witness: selecting the (sorted) team of `exRawC4` seeds its first
pick. -/
theorem C4_select_team_witness :
    Step false overviewStateC4 (selectTeam overviewStateC4 teamC) ∧
    (selectTeam overviewStateC4 teamC).view = View.team ∧
    (selectTeam overviewStateC4 teamC).activeTeam = some teamC ∧
    (selectTeam overviewStateC4 teamC).activePlayer = teamC.picks.head? ∧
    teamC.picks.Sorted pickLE ∧
    (teamC.picks = [] → (selectTeam overviewStateC4 teamC).activePlayer = none) :=
  C4_select_team exRawC4 overviewStateC4 teamC (by decide) rfl (by decide)

/-! ## Claim C6: a failed reload clears everything -/

/-- C6: after any successful load (here with a non-empty normalized list),
a failed reload yields the overview with an empty team list, no active team
or player, and the error message recorded — no data from before the failure
is retained. -/
theorem C6_failed_reload (s : AppState) (resp : DraftResponse)
    (_hne : normalizeTeams (resp.teams.getD []) ≠ []) :
    (applyLoadFailure (applyLoadSuccess s resp)).view = View.overview ∧
    (applyLoadFailure (applyLoadSuccess s resp)).teams = [] ∧
    (applyLoadFailure (applyLoadSuccess s resp)).activeTeam = none ∧
    (applyLoadFailure (applyLoadSuccess s resp)).activePlayer = none ∧
    (applyLoadFailure (applyLoadSuccess s resp)).error =
      some "Failed to load draft data. Please try again later." :=
  ⟨rfl, rfl, rfl, rfl, rfl⟩

/-- C6 witness: the success-then-failure sequence from the initial state
with a one-team document. -/
theorem C6_failed_reload_witness :
    normalizeTeams ((some [({ id := some "c", name := some "Team C", logo := none, picks := none } : DraftTeam)] : Option (List DraftTeam)).getD []) ≠ [] ∧
    (applyLoadFailure (applyLoadSuccess initialState { teams := some [{ id := some "c", name := some "Team C", logo := none, picks := none }] })).teams = [] ∧
    (applyLoadFailure (applyLoadSuccess initialState { teams := some [{ id := some "c", name := some "Team C", logo := none, picks := none }] })).view = View.overview :=
  ⟨by decide,
   (C6_failed_reload initialState { teams := some [{ id := some "c", name := some "Team C", logo := none, picks := none }] } (by decide)).2.1,
   (C6_failed_reload initialState { teams := some [{ id := some "c", name := some "Team C", logo := none, picks := none }] } (by decide)).1⟩

/-! ## Claim C7: resolutions after teardown are discarded -/

/-- C7: when the component has been torn down (`isMounted = false`) before
a pending fetch resolves, the resolution — successful or failed — changes
nothing: team list, view, active team, active player, loading flag and
error are all left exactly as they were.  `resolveLoad` is a total
function, so the discarded resolution also cannot throw. -/
theorem C7_teardown_discards (s : AppState) (outcome : Option DraftResponse) :
    resolveLoad false s outcome = s := rfl

/-! ## Claim C8: case-insensitive stat lookup -/

/-- JS `s.toUpperCase()` (character-wise raising). -/
def strToUpper (s : String) : String := List.asString (s.data.map Char.toUpper)

/-- JS property lookup `stats[key] !== undefined` on the stats record. -/
def statsGet (stats : PlayerStats) (key : String) : Option StatValue :=
  List.lookup key stats

/-- Function `resolveStatValue` from the source: exact key first, then lower-case,
then upper-case. -/
def resolveStatValue (stats : Option PlayerStats) (key : String) : Option StatValue :=
  match stats with
  | none => none
  | some st =>
    match statsGet st key with
    | some v => some v
    | none =>
      match statsGet st (strToLower key) with
      | some v => some v
      | none => statsGet st (strToUpper key)

/-- The value shown by `renderStatChip`: the resolved value, or the
placeholder `"--"` (`value ?? "--"`). -/
def displayedStat (label : String) (stats : Option PlayerStats) : StatValue :=
  (resolveStatValue stats label).getD (StatValue.str "--")

/-- C8: the displayed stat value is `stats[L]` when defined, else
`stats[lowercase(L)]`, else `stats[uppercase(L)]`, else the placeholder
`"--"`; with no stats mapping every label displays `"--"`. -/
theorem C8_stat_lookup (stats : PlayerStats) (label : String) :
    (∀ v, statsGet stats label = some v → displayedStat label (some stats) = v) ∧
    (statsGet stats label = none →
      ∀ v, statsGet stats (strToLower label) = some v →
        displayedStat label (some stats) = v) ∧
    (statsGet stats label = none → statsGet stats (strToLower label) = none →
      ∀ v, statsGet stats (strToUpper label) = some v →
        displayedStat label (some stats) = v) ∧
    (statsGet stats label = none → statsGet stats (strToLower label) = none →
      statsGet stats (strToUpper label) = none →
      displayedStat label (some stats) = StatValue.str "--") ∧
    displayedStat label none = StatValue.str "--" := by
  refine ⟨?_, ?_, ?_, ?_, rfl⟩
  · intro v hv
    simp [displayedStat, resolveStatValue, hv]
  · intro h0 v hv
    simp [displayedStat, resolveStatValue, h0, hv]
  · intro h0 h1 v hv
    simp [displayedStat, resolveStatValue, h0, h1, hv]
  · intro h0 h1 h2
    simp [displayedStat, resolveStatValue, h0, h1, h2]

/-- The claim's example stats record `{ppg: 24.5}`. -/
def exStats : PlayerStats := [("ppg", StatValue.num 24.5)]

/-- C8 witness: `{ppg: 24.5}` displays `24.5` under label `"PPG"` (via the
lower-case probe), an unmapped label displays `"--"`, and a missing stats
record displays `"--"`. -/
theorem C8_stat_lookup_witness :
    displayedStat "PPG" (some exStats) = StatValue.num 24.5 ∧
    displayedStat "RPG" (some exStats) = StatValue.str "--" ∧
    displayedStat "PPG" none = StatValue.str "--" :=
  ⟨(C8_stat_lookup exStats "PPG").2.1 rfl (StatValue.num 24.5) rfl,
   (C8_stat_lookup exStats "RPG").2.2.2.1 rfl rfl rfl,
   (C8_stat_lookup exStats "PPG").2.2.2.2⟩

/-! ## Claim C3: the TeamDetail membership invariant

The invariant as claimed fails under unrestricted reloads: a successful
non-empty reload in the team view replaces the list without revalidating
the selection.  The part about the active player survives unrestricted;
the membership part holds when fetch resolutions happen on the overview
(`Reachable true`). -/

/-- First-element membership. -/
theorem head?_mem {l : List α} {a : α} (h : l.head? = some a) : a ∈ l := by
  cases l with
  | nil => cases h
  | cons b t =>
    simp only [List.head?_cons, Option.some.injEq] at h
    exact h ▸ List.mem_cons_self b t

/-- The selection invariant: nothing selected on the overview; in the team
view the active team is in the list and the active player is one of its
picks. -/
def TeamInv (s : AppState) : Prop :=
  (s.view = View.overview → s.activeTeam = none ∧ s.activePlayer = none) ∧
  (s.view = View.team → ∃ t, s.activeTeam = some t ∧ t ∈ s.teams ∧
    ∀ p, s.activePlayer = some p → p ∈ t.picks)

/-- The reload-proof part of the invariant: in the team view the active
player (if set) is one of the active team's picks. -/
def PlayerInv (s : AppState) : Prop :=
  s.view = View.team → ∃ t, s.activeTeam = some t ∧
    ∀ p, s.activePlayer = some p → p ∈ t.picks

/-- Moving to a team preserves `PlayerInv`. -/
theorem playerInv_moveToTeam {s : AppState} (hs : PlayerInv s) (idx : Int) :
    PlayerInv (moveToTeam s idx) := by
  unfold moveToTeam
  split
  · exact hs
  · cases hget : s.teams.get? idx.toNat with
    | none => simp only [hget]; exact hs
    | some t =>
      simp only [hget]
      intro _
      exact ⟨t, rfl, fun p hp => head?_mem hp⟩

/-- Seeding the player preserves `PlayerInv`. -/
theorem playerInv_seedPlayer {s : AppState} (hs : PlayerInv s) :
    PlayerInv (seedPlayer s) := by
  unfold seedPlayer
  split
  · cases ha : s.activeTeam with
    | none => exact hs
    | some t =>
      cases hap : s.activePlayer with
      | some p => exact hs
      | none =>
        intro _
        exact ⟨t, rfl, fun p hp => head?_mem hp⟩
  · exact hs

/-- Every event preserves `PlayerInv` (under either fetch discipline). -/
theorem playerInv_step {b : Bool} {s s' : AppState} (hs : PlayerInv s)
    (st : Step b s s') : PlayerInv s' := by
  cases st with
  | tapTeam t hv ht =>
    intro _
    exact ⟨t, rfl, fun p hp => head?_mem hp⟩
  | tapPlayer t p hv ha hp =>
    intro _
    refine ⟨t, ha, fun q hq => ?_⟩
    have hpq : p = q := Option.some.inj hq
    exact hpq ▸ hp
  | tapBack hv =>
    intro h
    exact View.noConfusion h
  | tapPrev hv =>
    unfold prevTrigger
    split
    · exact playerInv_moveToTeam hs _
    · exact hs
  | tapNext hv =>
    unfold nextTrigger
    split
    · exact playerInv_moveToTeam hs _
    · exact hs
  | fetchStart => exact hs
  | fetchSuccess resp hv =>
    unfold applyLoadSuccess
    split
    · intro h
      exact View.noConfusion h
    · exact hs
  | fetchFailure =>
    intro h
    exact View.noConfusion h
  | effectSeed => exact playerInv_seedPlayer hs

/-- Moving to a team preserves `TeamInv` when triggered from the team view. -/
theorem teamInv_moveToTeam {s : AppState} (hv : s.view = View.team)
    (hs : TeamInv s) (idx : Int) : TeamInv (moveToTeam s idx) := by
  unfold moveToTeam
  split
  · exact hs
  · cases hget : s.teams.get? idx.toNat with
    | none => simp only [hget]; exact hs
    | some t =>
      simp only [hget]
      constructor
      · intro h
        exact absurd (hv.symm.trans h) (by decide)
      · intro _
        exact ⟨t, rfl, List.get?_mem hget, fun p hp => head?_mem hp⟩

/-- Seeding the player preserves `TeamInv`. -/
theorem teamInv_seedPlayer {s : AppState} (hs : TeamInv s) :
    TeamInv (seedPlayer s) := by
  unfold seedPlayer
  split
  · cases ha : s.activeTeam with
    | none => exact hs
    | some t =>
      cases hap : s.activePlayer with
      | some p => exact hs
      | none =>
        rename_i hview
        obtain ⟨t0, ha0, hmem, _⟩ := hs.2 hview
        have ht0 : t0 = t := by rw [ha] at ha0; exact (Option.some.inj ha0).symm
        subst ht0
        constructor
        · intro h
          exact absurd (hview.symm.trans h) (by decide)
        · intro _
          exact ⟨t0, rfl, hmem, fun p hp => head?_mem hp⟩
  · exact hs

/-- Every event preserves `TeamInv` when fetch resolutions happen only on
the overview. -/
theorem teamInv_step {s s' : AppState} (hs : TeamInv s) (st : Step true s s') :
    TeamInv s' := by
  obtain ⟨hov, htm⟩ := hs
  cases st with
  | tapTeam t hv ht =>
    constructor
    · intro h
      exact View.noConfusion h
    · intro _
      exact ⟨t, rfl, ht, fun p hp => head?_mem hp⟩
  | tapPlayer t p hv ha hp =>
    constructor
    · intro h
      exact absurd (hv.symm.trans h) (by decide)
    · intro _
      obtain ⟨t0, ha0, hmem, _⟩ := htm hv
      have hte : t = t0 := Option.some.inj (ha.symm.trans ha0)
      refine ⟨t0, ha0, hmem, fun q hq => ?_⟩
      have hpq : p = q := Option.some.inj hq
      exact hpq ▸ hte ▸ hp
  | tapBack hv =>
    exact ⟨fun _ => ⟨rfl, rfl⟩, fun h => View.noConfusion h⟩
  | tapPrev hv =>
    unfold prevTrigger
    split
    · exact teamInv_moveToTeam hv ⟨hov, htm⟩ _
    · exact ⟨hov, htm⟩
  | tapNext hv =>
    unfold nextTrigger
    split
    · exact teamInv_moveToTeam hv ⟨hov, htm⟩ _
    · exact ⟨hov, htm⟩
  | fetchStart => exact ⟨hov, htm⟩
  | fetchSuccess resp hv =>
    have hview := hv rfl
    unfold applyLoadSuccess
    split
    · exact ⟨fun _ => ⟨rfl, rfl⟩, fun h => View.noConfusion h⟩
    · obtain ⟨h1, h2⟩ := hov hview
      constructor
      · intro _
        exact ⟨h1, h2⟩
      · intro h
        exact absurd (hview.symm.trans h) (by decide)
  | fetchFailure =>
    exact ⟨fun _ => ⟨rfl, rfl⟩, fun h => View.noConfusion h⟩
  | effectSeed => exact teamInv_seedPlayer ⟨hov, htm⟩

/-- Invariant `PlayerInv` holds in every reachable state. -/
theorem playerInv_reachable {b : Bool} {s : AppState} (h : Reachable b s) :
    PlayerInv s := by
  induction h with
  | init => exact fun h => absurd h (by decide)
  | step hr hst ih => exact playerInv_step ih hst

/-- Invariant `TeamInv` holds in every state reachable with overview-only fetch
resolutions. -/
theorem teamInv_reachable {s : AppState} (h : Reachable true s) : TeamInv s := by
  induction h with
  | init => exact ⟨fun _ => ⟨rfl, rfl⟩, fun h => absurd h (by decide)⟩
  | step hr hst ih => exact teamInv_step ih hst

/-- Any overview-disciplined step is also an unrestricted step. -/
theorem step_false_of_true {s s' : AppState} (h : Step true s s') :
    Step false s s' := by
  cases h with
  | tapTeam t hv ht => exact Step.tapTeam s t hv ht
  | tapPlayer t p hv ha hp => exact Step.tapPlayer s t p hv ha hp
  | tapBack hv => exact Step.tapBack s hv
  | tapPrev hv => exact Step.tapPrev s hv
  | tapNext hv => exact Step.tapNext s hv
  | fetchStart => exact Step.fetchStart s
  | fetchSuccess resp hv => exact Step.fetchSuccess s resp (fun h => Bool.noConfusion h)
  | fetchFailure => exact Step.fetchFailure s
  | effectSeed => exact Step.effectSeed s

/-- Overview-disciplined reachability implies unrestricted reachability. -/
theorem reachable_false_of_true {s : AppState} (h : Reachable true s) :
    Reachable false s := by
  induction h with
  | init => exact Reachable.init
  | step hr hst ih => exact Reachable.step ih (step_false_of_true hst)

/-- C3 (amended): in every reachable state showing `TeamDetail` the active
team is set and the active player, if set, is one of that team's picks;
the active team is additionally a member of the current canonical team
list in every state reachable while successful fetch resolutions happen
only on the overview.  (Unrestricted reloads break the membership part —
see the counterexample — because a successful non-empty reload does not
revalidate the selection.) -/
theorem C3_detail_invariant :
    (∀ s : AppState, Reachable false s → s.view = View.team →
      ∃ t, s.activeTeam = some t ∧ ∀ p, s.activePlayer = some p → p ∈ t.picks) ∧
    (∀ s : AppState, Reachable true s → s.view = View.team →
      ∃ t, s.activeTeam = some t ∧ t ∈ s.teams ∧
        ∀ p, s.activePlayer = some p → p ∈ t.picks) :=
  ⟨fun _ h hv => playerInv_reachable h hv,
   fun _ h hv => (teamInv_reachable h).2 hv⟩

/-- The one-team document containing only `teamA`. -/
def respA : DraftResponse :=
  { teams := some [{ id := some "a", name := some "Team A", logo := none, picks := none }] }

/-- The one-team document containing only `teamB`. -/
def respB : DraftResponse :=
  { teams := some [{ id := some "b", name := some "Team B", logo := none, picks := none }] }

/-- The state after the initial load of `respA` succeeds. -/
def loadedState : AppState :=
  { teams := [teamA], view := View.overview, activeTeam := none,
    activePlayer := none, isLoading := false, error := none }

/-- The state after selecting `teamA` from the overview. -/
def detailState : AppState :=
  { teams := [teamA], view := View.team, activeTeam := some teamA,
    activePlayer := none, isLoading := false, error := none }

/-- The load of `respA` lands on `loadedState`. -/
theorem loadA_eq : applyLoadSuccess initialState respA = loadedState := by decide

/-- Selecting `teamA` lands on `detailState`. -/
theorem selectA_eq : selectTeam loadedState teamA = detailState := by decide

/-- A reload of `respB` in the team view lands on `staleState`. -/
theorem loadB_eq : applyLoadSuccess detailState respB = staleState := by decide

/-- State `detailState` is reachable under either fetch discipline. -/
theorem detailState_reachable (b : Bool) : Reachable b detailState := by
  have h1 : Reachable b (applyLoadSuccess initialState respA) :=
    Reachable.step Reachable.init (Step.fetchSuccess initialState respA (fun _ => rfl))
  rw [loadA_eq] at h1
  have h2 : Reachable b (selectTeam loadedState teamA) :=
    Reachable.step h1 (Step.tapTeam loadedState teamA rfl (by decide))
  rw [selectA_eq] at h2
  exact h2

/-- C3 counterexample: the trace load `respA` → select `teamA` → reload
`respB` reaches a `TeamDetail` state whose active team `teamA` is not a
member of the current canonical team list `[teamB]`; the claimed invariant
fails over the full event set. -/
theorem C3_counterexample :
    Reachable false staleState ∧ staleState.view = View.team ∧
    staleState.activeTeam = some teamA ∧ teamA ∉ staleState.teams := by
  have h3 : Reachable false (applyLoadSuccess detailState respB) :=
    Reachable.step (detailState_reachable false)
      (Step.fetchSuccess detailState respB (fun h => Bool.noConfusion h))
  rw [loadB_eq] at h3
  exact ⟨h3, rfl, rfl, by decide⟩

/-- C3 witness: both parts of the amended invariant, instantiated at the
reachable state `detailState`. -/
theorem C3_detail_invariant_witness :
    (∃ t, detailState.activeTeam = some t ∧
      ∀ p, detailState.activePlayer = some p → p ∈ t.picks) ∧
    (∃ t, detailState.activeTeam = some t ∧ t ∈ detailState.teams ∧
      ∀ p, detailState.activePlayer = some p → p ∈ t.picks) :=
  ⟨C3_detail_invariant.1 detailState (detailState_reachable false) rfl,
   C3_detail_invariant.2 detailState (detailState_reachable true) rfl⟩

/-! ## Claim C9: decimal suffixes make generated ids distinct

The generated ids embed the positional index as a decimal suffix after a
hyphen; since decimal digits are never hyphens, the suffix, and with it the
index, is recoverable from the id.  The following develops injectivity of
`Nat.repr` (via a parse round trip over `Nat.toDigitsCore`) and of
`base ++ "-" ++ Nat.repr i` in `i`. -/

/-- Numeric value of a decimal digit character. -/
def digitVal (c : Char) : Nat := c.toNat - '0'.toNat

/-- Parse a digit string (most significant first). -/
def parseDigits (l : List Char) : Nat :=
  l.foldl (fun acc c => 10 * acc + digitVal c) 0

theorem parseDigits_append (l : List Char) (c : Char) :
    parseDigits (l ++ [c]) = 10 * parseDigits l + digitVal c := by
  simp [parseDigits, List.foldl_append]

theorem digitVal_digitChar : ∀ d : Nat, d < 10 → digitVal (Nat.digitChar d) = d := by decide

theorem digitChar_isDigit : ∀ d : Nat, d < 10 → (Nat.digitChar d).isDigit = true := by decide

/-- The accumulator of `Nat.toDigitsCore` is a plain suffix. -/
theorem toDigitsCore_append (fuel n : Nat) (ds : List Char) :
    Nat.toDigitsCore 10 fuel n ds = Nat.toDigitsCore 10 fuel n [] ++ ds := by
  induction fuel generalizing n ds with
  | zero => simp [Nat.toDigitsCore]
  | succ fuel ih =>
    simp only [Nat.toDigitsCore]
    by_cases h : n / 10 = 0
    · simp [h]
    · rw [if_neg h, if_neg h, ih (n / 10) (Nat.digitChar (n % 10) :: ds),
        ih (n / 10) [Nat.digitChar (n % 10)]]
      simp

/-- Round trip: parsing the digits of `n` gives back `n`. -/
theorem parse_toDigitsCore (fuel n : Nat) (h : n < fuel) :
    parseDigits (Nat.toDigitsCore 10 fuel n []) = n := by
  induction fuel generalizing n with
  | zero => omega
  | succ fuel ih =>
    simp only [Nat.toDigitsCore]
    by_cases h0 : n / 10 = 0
    · rw [if_pos h0]
      have hps : parseDigits [Nat.digitChar (n % 10)] = digitVal (Nat.digitChar (n % 10)) := by
        simp [parseDigits]
      rw [hps, digitVal_digitChar (n % 10) (Nat.mod_lt _ (by omega))]
      omega
    · rw [if_neg h0, toDigitsCore_append fuel (n / 10) [Nat.digitChar (n % 10)],
        parseDigits_append, ih (n / 10) (by omega),
        digitVal_digitChar (n % 10) (Nat.mod_lt _ (by omega))]
      omega

/-- Every character produced by `Nat.toDigitsCore` (over digit seeds) is a
digit. -/
theorem toDigitsCore_digits (fuel n : Nat) (ds : List Char)
    (hds : ∀ c ∈ ds, c.isDigit = true) :
    ∀ c ∈ Nat.toDigitsCore 10 fuel n ds, c.isDigit = true := by
  induction fuel generalizing n ds with
  | zero => simpa [Nat.toDigitsCore] using hds
  | succ fuel ih =>
    simp only [Nat.toDigitsCore]
    have hd : (Nat.digitChar (n % 10)).isDigit = true :=
      digitChar_isDigit (n % 10) (Nat.mod_lt _ (by omega))
    by_cases h0 : n / 10 = 0
    · rw [if_pos h0]
      intro c hc
      rcases List.mem_cons.mp hc with rfl | hc
      · exact hd
      · exact hds c hc
    · rw [if_neg h0]
      refine ih (n / 10) _ (fun c hc => ?_)
      rcases List.mem_cons.mp hc with rfl | hc
      · exact hd
      · exact hds c hc

/-- The decimal representation of a natural number is all digits. -/
theorem repr_data_digits (n : Nat) : ∀ c ∈ (Nat.repr n).data, c.isDigit = true := by
  intro c hc
  exact toDigitsCore_digits (n + 1) n [] (by simp) c hc

/-- Decimal representation is injective (on the underlying character lists). -/
theorem repr_data_inj {i j : Nat} (h : (Nat.repr i).data = (Nat.repr j).data) :
    i = j := by
  have hi : parseDigits (Nat.repr i).data = i := parse_toDigitsCore (i + 1) i (by omega)
  have hj : parseDigits (Nat.repr j).data = j := parse_toDigitsCore (j + 1) j (by omega)
  rw [← hi, ← hj, h]

theorem takeWhile_all_append {p : α → Bool} {l : List α} (hl : ∀ x ∈ l, p x = true)
    {c : α} (hc : p c = false) (r : List α) :
    (l ++ c :: r).takeWhile p = l := by
  induction l with
  | nil => simp [List.takeWhile_cons, hc]
  | cons a t ih =>
    have ha := hl a (List.mem_cons_self a t)
    simp only [List.cons_append, List.takeWhile_cons, ha, if_true]
    rw [ih (fun x hx => hl x (List.mem_cons_of_mem a hx))]

theorem digit_not_dash {c : Char} (h : c.isDigit = true) : (!(c == '-')) = true := by
  have hne : c ≠ '-' := fun hc => by rw [hc] at h; exact absurd h (by decide)
  simp [hne]

/-- The decimal suffix after the last hyphen determines the index. -/
theorem append_repr_inj {a b : String} {i j : Nat}
    (h : a ++ "-" ++ Nat.repr i = b ++ "-" ++ Nat.repr j) : i = j := by
  have hd : a.data ++ '-' :: (Nat.repr i).data = b.data ++ '-' :: (Nat.repr j).data := by
    have hdata := congrArg String.data h
    simpa [String.data_append] using hdata
  have hrev := congrArg List.reverse hd
  simp only [List.reverse_append, List.reverse_cons, List.append_assoc,
    List.singleton_append] at hrev
  have htw := congrArg (List.takeWhile (fun c => !(c == '-'))) hrev
  rw [takeWhile_all_append (p := fun c => !(c == '-')) (c := '-')
        (fun x hx => digit_not_dash (repr_data_digits i x (List.mem_reverse.mp hx))) rfl,
      takeWhile_all_append (p := fun c => !(c == '-')) (c := '-')
        (fun x hx => digit_not_dash (repr_data_digits j x (List.mem_reverse.mp hx))) rfl] at htw
  exact repr_data_inj (by
    have := congrArg List.reverse htw
    simpa using this)

theorem ne_empty_of_length_pos {s : String} (h : 0 < s.length) : s ≠ "" := by
  intro he
  rw [he] at h
  exact absurd h (by decide)

/-- Either `createTeamId` returns a provided non-blank id verbatim, or a
string of the form `base ++ "-" ++ <decimal index>`. -/
theorem createTeamId_cases (team : DraftTeam) (index : Nat) :
    (0 < (strTrim (team.id.getD "")).length ∧
      createTeamId team index = team.id.getD "") ∨
    (∃ base : String, createTeamId team index = base ++ "-" ++ Nat.repr index) := by
  by_cases h1 : 0 < (strTrim (team.id.getD "")).length
  · left
    refine ⟨h1, ?_⟩
    simp only [createTeamId]
    rw [if_pos h1]
  · right
    simp only [createTeamId]
    rw [if_neg h1]
    by_cases h2 : 0 < (strTrim (team.name.getD "")).length
    · rw [if_pos h2]
      by_cases h3 : 0 < (slugify (team.name.getD "")).length
      · rw [if_pos h3]
        exact ⟨slugify (team.name.getD ""), rfl⟩
      · rw [if_neg h3]
        exact ⟨"team", rfl⟩
    · rw [if_neg h2]
      exact ⟨"team", rfl⟩

/-- Every id the normalizer assigns is non-empty. -/
theorem createTeamId_ne_empty (team : DraftTeam) (index : Nat) :
    createTeamId team index ≠ "" := by
  rcases createTeamId_cases team index with ⟨hlen, heq⟩ | ⟨base, heq⟩
  · rw [heq]
    intro he
    rw [he] at hlen
    exact absurd hlen (by decide)
  · rw [heq]
    apply ne_empty_of_length_pos
    rw [String.length_append, String.length_append]
    have h1 : ("-" : String).length = 1 := rfl
    omega

/-- A record that provides no usable id gets a generated
`base ++ "-" ++ <index>` id. -/
theorem createTeamId_shape (team : DraftTeam) (index : Nat)
    (hid : (strTrim (team.id.getD "")).length = 0) :
    ∃ base : String, createTeamId team index = base ++ "-" ++ Nat.repr index := by
  rcases createTeamId_cases team index with ⟨hlen, _⟩ | h
  · omega
  · exact h

/-- Two raw records that both provide the id `"x"`. -/
def dupIdRaw : List DraftTeam :=
  [{ id := some "x", name := none, logo := none, picks := none },
   { id := some "x", name := none, logo := none, picks := none }]

/-- C9 counterexample: explicitly provided ids are used verbatim, so two
records providing the same id normalize to duplicate ids — the claimed
pairwise distinctness fails. -/
theorem C9_counterexample :
    (normalizeTeams dupIdRaw).map Team.id = ["x", "x"] ∧
    ¬ ((normalizeTeams dupIdRaw).map Team.id).Nodup := by
  have h1 : (normalizeTeams dupIdRaw).map Team.id = ["x", "x"] := by decide
  refine ⟨h1, ?_⟩
  rw [h1]
  decide

/-- C9 (amended): after normalization every team id is a non-empty string;
and when no raw record provides a non-blank id (so that every id is
generated from a name slug or the `team` fallback plus the positional
index), the ids are pairwise distinct — in particular duplicate-looking
names receive distinct ids.  (Provided ids are used verbatim and may
collide, as the counterexample shows.) -/
theorem C9_ids (raw : List DraftTeam) :
    (∀ t ∈ normalizeTeams raw, t.id ≠ "") ∧
    ((∀ dt ∈ raw, (strTrim (dt.id.getD "")).length = 0) →
      ((normalizeTeams raw).map Team.id).Nodup) := by
  constructor
  · intro t ht
    simp only [normalizeTeams, List.mem_map] at ht
    obtain ⟨p, _, rfl⟩ := ht
    exact createTeamId_ne_empty p.2 p.1
  · intro hid
    have hmap : (normalizeTeams raw).map Team.id
        = raw.enum.map (fun p => createTeamId p.2 p.1) := by
      simp only [normalizeTeams, List.map_map]
      rfl
    rw [hmap]
    have henum : raw.enum.Nodup :=
      List.Nodup.of_map Prod.fst (List.nodup_enum_map_fst raw)
    refine List.Nodup.map_on ?_ henum
    rintro ⟨i, dt⟩ hx ⟨j, dt'⟩ hy hxy
    have hgi : raw.get? i = some dt := List.mk_mem_enum_iff_get?.mp hx
    have hgj : raw.get? j = some dt' := List.mk_mem_enum_iff_get?.mp hy
    have hxy' : createTeamId dt i = createTeamId dt' j := hxy
    obtain ⟨a, ha⟩ := createTeamId_shape dt i (hid dt (List.get?_mem hgi))
    obtain ⟨c, hc⟩ := createTeamId_shape dt' j (hid dt' (List.get?_mem hgj))
    have hij : i = j := append_repr_inj (by rw [← ha, ← hc]; exact hxy')
    subst hij
    have hdd : dt = dt' := by
      rw [hgi] at hgj
      exact Option.some.inj hgj
    rw [hdd]

/-- Two raw records with the same name and no id. -/
def namesOnlyRaw : List DraftTeam :=
  [{ id := none, name := some "Golden State Warriors", logo := none, picks := none },
   { id := none, name := some "Golden State Warriors", logo := none, picks := none }]

/-- C9 witness: two records with the duplicate-looking name
`"Golden State Warriors"` and no ids receive non-empty, distinct ids. -/
theorem C9_ids_witness :
    (∀ t ∈ normalizeTeams namesOnlyRaw, t.id ≠ "") ∧
    ((normalizeTeams namesOnlyRaw).map Team.id).Nodup :=
  ⟨(C9_ids namesOnlyRaw).1, (C9_ids namesOnlyRaw).2 (by decide)⟩

end MockDraft
